import Mathlib

/-!
Shallow embedding of the color→size stock model of the Product-BE repository
(src/models/Product.ts and the bulk-stock path of
src/controllers/productController.ts), together with proofs of the spec's
claims about it.

JavaScript numbers that occur in this core are used only as integers
(stock counts, quantities, numeric sizes), so they are modelled as `Int`.
The `size` field of a SizeVariant is `number | string` compared with `===`
(strict type-and-value equality), modelled as a sum type.
-/

namespace ProductBE

/-- A JS `number | string` size value; `===` never identifies a number with
a string, which the sum type captures. -/
inductive SizeVal where
  | num (n : Int)
  | str (s : String)
deriving DecidableEq, Repr

/-- How a size value renders inside a JS template string (numbers via
decimal notation, strings verbatim, no quotes). -/
def SizeVal.render : SizeVal → String
  | .num n => toString n
  | .str s => s

/-- SizeVariant (src/types/index.ts:37-40): one size slot with its stock. -/
structure SizeVariant where
  size : SizeVal
  stock : Int
deriving DecidableEq, Repr

/-- ColorVariant (src/types/index.ts:43-47): a color with its size slots.
The `images` field is never touched by the stock core and is omitted. -/
structure ColorVariant where
  color : String
  sizes : List SizeVariant
deriving DecidableEq, Repr

/-- The slice of a Product document the stock core reads and writes:
its `variants` array. `none` models an absent (null/undefined) array,
which `updateStock` initializes (src/models/Product.ts:148-150). All other
document fields are irrelevant to the stock operations. -/
structure Product where
  variants : Option (List ColorVariant)
deriving DecidableEq, Repr

/-- The `inStock` virtual (src/models/Product.ts:102-113): false for an
absent or empty variants array, otherwise true iff some size slot has
positive stock. -/
def inStock (p : Product) : Bool :=
  match p.variants with
  | none => false
  | some vs =>
    if vs.length == 0 then false
    else vs.any fun v =>
      if v.sizes.length > 0 then v.sizes.any fun sv => sv.stock > 0
      else false

/-- The `totalStock` virtual (src/models/Product.ts:116-128): accumulates
`total += sizeVariant.stock || 0` over every color and size (the `|| 0` is
the identity here because every modelled slot carries an integer stock). -/
def totalStock (p : Product) : Int :=
  match p.variants with
  | none => 0
  | some vs =>
    if vs.length == 0 then 0
    else vs.foldl (fun total v =>
      if v.sizes.length > 0 then
        v.sizes.foldl (fun t sv => t + sv.stock) total
      else total) 0

/-- The `getStockBySize` method (src/models/Product.ts:131-144): per color,
`find` the first size slot strictly equal to the requested size and add its
stock. -/
def getStockBySize (p : Product) (size : SizeVal) : Int :=
  match p.variants with
  | none => 0
  | some vs =>
    if vs.length == 0 then 0
    else vs.foldl (fun total v =>
      if v.sizes.length > 0 then
        match v.sizes.find? (fun sv => sv.size == size) with
        | some sv => total + sv.stock
        | none => total
      else total) 0

/-- Apply `f` to the first element satisfying `pred`, keeping the rest.
This models JS code that mutates, through the reference returned by
`Array.prototype.find`, the found element in place inside its array. -/
def updateFirst (pred : α → Bool) (f : α → α) : List α → List α
  | [] => []
  | x :: xs => if pred x then f x :: xs else x :: updateFirst pred f xs

/-- The find-or-create step for the color variant
(src/models/Product.ts:152-160): a missing color is pushed at the end with
an empty size list. -/
def ensureColor (vs : List ColorVariant) (color : String) : List ColorVariant :=
  if vs.any (fun v => v.color == color) then vs
  else vs ++ [{ color := color, sizes := [] }]

/-- The find-or-create step for the size variant
(src/models/Product.ts:162-170): a missing size is pushed at the end with
stock 0. -/
def ensureSize (ss : List SizeVariant) (size : SizeVal) : List SizeVariant :=
  if ss.any (fun sv => sv.size == size) then ss
  else ss ++ [{ size := size, stock := 0 }]

/-- Both find-or-create steps of `updateStock`: ensure the color exists,
then ensure the size exists inside the first color whose `color` matches
(the slot the JS references address). -/
def ensureSlot (vs : List ColorVariant) (color : String) (size : SizeVal) :
    List ColorVariant :=
  updateFirst (fun v => v.color == color)
    (fun v => { v with sizes := ensureSize v.sizes size })
    (ensureColor vs color)

/-- The stock of the addressed slot: first color whose `color` matches,
then first size inside it whose `size` matches; 0 when absent (the JS
`sizeVariant.stock || 0` read on a fresh slot). -/
def slotStock (vs : List ColorVariant) (color : String) (size : SizeVal) : Int :=
  match vs.find? (fun v => v.color == color) with
  | some v =>
    match v.sizes.find? (fun sv => sv.size == size) with
    | some sv => sv.stock
    | none => 0
  | none => 0

/-- The write `sizeVariant.stock = newStock` (src/models/Product.ts:179):
set the stock of the addressed slot (first matching color, first matching
size inside it). -/
def writeSlot (vs : List ColorVariant) (color : String) (size : SizeVal)
    (newStock : Int) : List ColorVariant :=
  updateFirst (fun v => v.color == color)
    (fun v => { v with sizes := (updateFirst (fun sv => sv.size == size)
                  (fun sv => { sv with stock := newStock }) v.sizes) })
    vs

/-- The data the thrown insufficient-stock `Error`'s message carries
(src/models/Product.ts:176). -/
structure StockError where
  color : String
  size : SizeVal
  available : Int
  requested : Int
deriving DecidableEq, Repr

/-- The rendered message of the thrown `Error`, following the template
string at src/models/Product.ts:176. -/
def StockError.message (e : StockError) : String :=
  "Insufficient stock for color \"" ++ e.color ++ "\" size " ++ e.size.render
    ++ ". Available: " ++ toString e.available
    ++ ", Requested: " ++ toString e.requested

/-- The `updateStock` method (src/models/Product.ts:147-182) as a pure
state transformer. The first component is the in-memory document when the
method finishes: JS mutates `this` in place, and the find-or-create pushes
happen before the invariant check, so they survive a throw. The second
component is the outcome: `.ok` with the saved product, or `.error` with
the thrown insufficient-stock data (in which case `save()` is never
reached). -/
def updateStock (p : Product) (color : String) (size : SizeVal)
    (quantity : Int) : Product × Except StockError Product :=
  let vs2 := ensureSlot (p.variants.getD []) color size
  let currentStock := slotStock vs2 color size
  let newStock := currentStock + quantity
  if newStock < 0 then
    ({ p with variants := some vs2 },
     .error { color := color, size := size,
              available := currentStock, requested := quantity })
  else
    let p2 : Product := { p with variants := some (writeSlot vs2 color size newStock) }
    (p2, .ok p2)

/-- A JS request-body value, as far as the bulk endpoint's truthiness and
`typeof` checks distinguish values: a number, a string, or anything else
(missing field, null, boolean, object, ...), which those checks treat
uniformly. -/
inductive JVal where
  | num (n : Int)
  | str (s : String)
  | other
deriving DecidableEq, Repr

/-- One `{size, quantity}` entry of the bulk request body
(src/types/index.ts:140-148 declares both fields; the wire may carry
anything, hence `JVal`). -/
structure BulkSizeEntry where
  size : JVal
  quantity : JVal
deriving DecidableEq, Repr

/-- One `{color, sizes}` entry of the bulk request body. `sizes = none`
models a missing or non-array `sizes` field (the `Array.isArray` check);
`some l` models an actual array, possibly empty. -/
structure BulkVariantEntry where
  color : JVal
  sizes : Option (List BulkSizeEntry)
deriving DecidableEq, Repr

/-- The mutable state of the bulk loop
(src/controllers/productController.ts:516-518): the product document and
the `updates` and `errors` accumulators. -/
structure BulkState where
  product : Product
  updates : List String
  errors : List String
deriving DecidableEq, Repr

/-- Renders `${quantity > 0 ? '+' : ''}${quantity}` from the success
description of a bulk triple (src/controllers/productController.ts:545). -/
def fmtQuantity (q : Int) : String :=
  if q > 0 then "+" ++ toString q else toString q

/-- The body of the inner `for (const sizeUpdate of variant.sizes)` loop
(src/controllers/productController.ts:531-549): validate the `typeof` of
size and quantity, then try `product.updateStock`, collecting the outcome;
a thrown error is caught, recorded, and leaves the in-memory document as
the failed call left it. -/
def processSizeEntry (c : String) (st : BulkState) (e : BulkSizeEntry) :
    BulkState :=
  match e.size with
  | .num sn =>
    match e.quantity with
    | .num q =>
      match updateStock st.product c (.num sn) q with
      | (_, .ok p2) =>
        { st with product := p2,
                  updates := st.updates ++
                    [c ++ " size " ++ toString sn ++ ": " ++ fmtQuantity q] }
      | (mem, .error err) =>
        { st with product := mem,
                  errors := st.errors ++
                    ["Error updating " ++ c ++ " size " ++ toString sn
                      ++ ": " ++ err.message] }
    | _ =>
      { st with errors := st.errors ++
          ["Invalid quantity for color \"" ++ c ++ "\" size " ++ toString sn
            ++ ": must be a number"] }
  | _ =>
    { st with errors := st.errors ++
        ["Invalid size for color \"" ++ c ++ "\": must be a number"] }

/-- The body of the outer `for (const variant of variants)` loop
(src/controllers/productController.ts:520-550): `!variant.color` rejects a
falsy color (a non-string, or the empty string), `typeof` rejects
non-strings, `Array.isArray` rejects a missing or non-array `sizes`; a
valid entry runs the inner loop over its sizes. -/
def processVariantEntry (st : BulkState) (v : BulkVariantEntry) : BulkState :=
  match v.color with
  | .str c =>
    if c == "" then
      { st with errors := st.errors ++
          ["Invalid variant: color is required and must be a string"] }
    else
      match v.sizes with
      | none =>
        { st with errors := st.errors ++
            ["Invalid variant for color \"" ++ c ++ "\": sizes must be an array"] }
      | some ss => ss.foldl (processSizeEntry c) st
  | _ =>
    { st with errors := st.errors ++
        ["Invalid variant: color is required and must be a string"] }

/-- What the bulk endpoint reports once the loop is done
(src/controllers/productController.ts:552-566): `rejected` is the 400
"Failed to update stock" branch, taken iff there are errors and zero
updates; otherwise a 200 with the document, the update count and the
errors (when any). -/
structure BulkResponse where
  rejected : Bool
  product : Product
  updates : List String
  errors : List String
deriving DecidableEq, Repr

/-- The `updateBulkStock` controller core
(src/controllers/productController.ts:516-566), given a loaded product and
the request's `variants` array: run the validating double loop, then
classify the outcome. -/
def updateBulkStock (p : Product) (variants : List BulkVariantEntry) :
    BulkResponse :=
  let st := variants.foldl processVariantEntry
    { product := p, updates := [], errors := [] }
  { rejected := st.errors.length > 0 && st.updates.length == 0
    product := st.product
    updates := st.updates
    errors := st.errors }

/-- Run a sequence of `updateStock` calls on one in-memory product document,
threading the in-memory state (a failed call keeps the document it left
behind, exactly as the JS object survives a caught throw). -/
def runDeltas (p : Product) : List (String × SizeVal × Int) → Product
  | [] => p
  | (c, s, q) :: rest => runDeltas (updateStock p c s q).1 rest

/-! Spec-side formulations, written from the specification's words, to be
compared with the code-side functions above. -/

/-- The spec's reading of totalStock: the sum of `stock` over every
SizeVariant in every ColorVariant. -/
def specTotalStock (p : Product) : Int :=
  ((p.variants.getD []).map (fun v => (v.sizes.map SizeVariant.stock).sum)).sum

/-- The spec's reading of stockBySize: the sum of `stock` over every
SizeVariant, across all colors, whose `size` exactly matches the input. -/
def specStockBySize (p : Product) (s : SizeVal) : Int :=
  ((p.variants.getD []).map
    (fun v => ((v.sizes.filter (fun sv => sv.size == s)).map SizeVariant.stock).sum)).sum

/-- The contribution of one color to `getStockBySize`: the stock of the
first size slot matching `s`, or 0 when none does. -/
def colorFindStock (s : SizeVal) (v : ColorVariant) : Int :=
  match v.sizes.find? (fun sv => sv.size == s) with
  | some sv => sv.stock
  | none => 0

/-- Some size slot of the product holds strictly positive stock. -/
def hasPositiveSlot (p : Product) : Prop :=
  ∃ v ∈ p.variants.getD [], ∃ sv ∈ v.sizes, 0 < sv.stock

/-- Every size slot of the product holds nonnegative stock (the spec's
resting-state invariant). -/
def allStocksNonneg (p : Product) : Prop :=
  ∀ v ∈ p.variants.getD [], ∀ sv ∈ v.sizes, 0 ≤ sv.stock

/-- Every color's size list mentions each size value at most once (the
uniqueness the schema validator enforces at the aggregate boundary,
src/models/schemas/colorSchema.ts). -/
def sizesUniquePerColor (p : Product) : Prop :=
  ∀ v ∈ p.variants.getD [], v.sizes.Pairwise (fun a b => a.size ≠ b.size)

instance (p : Product) : Decidable (hasPositiveSlot p) := by
  unfold hasPositiveSlot
  infer_instance

instance (p : Product) : Decidable (allStocksNonneg p) := by
  unfold allStocksNonneg
  infer_instance

instance (p : Product) : Decidable (sizesUniquePerColor p) := by
  unfold sizesUniquePerColor
  exact List.decidableBAll _ _

/-- The pre-delta stock of the addressed (color, size) slot of a product:
the first matching slot's stock, or 0 when no such slot exists yet. -/
def currentStockOf (p : Product) (color : String) (size : SizeVal) : Int :=
  slotStock (p.variants.getD []) color size

/-- Extraction of the (color, size, quantity) triple of one numeric bulk
size entry; `none` for an entry the validation would reject. -/
def extractTriple (c : String) (e : BulkSizeEntry) :
    Option (String × SizeVal × Int) :=
  match e.size, e.quantity with
  | .num sn, .num q => some (c, .num sn, q)
  | _, _ => none

/-- Flattening of the bulk body into its well-typed (color, size, quantity)
triples in input order: group order first, then size order within the
group. -/
def flattenTriples (groups : List BulkVariantEntry) :
    List (String × SizeVal × Int) :=
  groups.flatMap fun g =>
    match g.color, g.sizes with
    | .str c, some ss => ss.filterMap (extractTriple c)
    | _, _ => []

/-- One step of the batch semantics as the spec words it: invoke the
single-delta primitive on the current document, collect the outcome into
the success or failure list, keep going either way. -/
def specStep (st : BulkState) (t : String × SizeVal × Int) : BulkState :=
  match updateStock st.product t.1 t.2.1 t.2.2 with
  | (_, .ok p2) =>
    { product := p2,
      updates := st.updates ++
        [t.1 ++ " size " ++ t.2.1.render ++ ": " ++ fmtQuantity t.2.2],
      errors := st.errors }
  | (mem, .error err) =>
    { product := mem,
      updates := st.updates,
      errors := st.errors ++
        ["Error updating " ++ t.1 ++ " size " ++ t.2.1.render
          ++ ": " ++ err.message] }

/-- The batch semantics as the spec words it (applyBulkStockDelta): fold
over the triples in input order, invoking the single-delta primitive for
each independently, never aborting and never rolling back. -/
def applyBulkStockDeltaSpec (p : Product)
    (triples : List (String × SizeVal × Int)) : BulkState :=
  triples.foldl specStep { product := p, updates := [], errors := [] }

/-- A bulk size entry both of whose fields are numbers, which is what the
controller's validation accepts. -/
def entryNumeric (e : BulkSizeEntry) : Bool :=
  (match e.size with | .num _ => true | _ => false) &&
  (match e.quantity with | .num _ => true | _ => false)

/-- A bulk group the controller's validation accepts in full: a truthy
string color, an array of sizes, every entry numeric. -/
def groupWellFormed (g : BulkVariantEntry) : Bool :=
  (match g.color with | .str c => c != "" | _ => false) &&
  (match g.sizes with | some ss => ss.all entryNumeric | none => false)

/-- A bulk body every group of which passes the controller's validation. -/
def wellFormedBulk (groups : List BulkVariantEntry) : Bool :=
  groups.all groupWellFormed

/-! Generic list lemmas about `updateFirst`, `find?` and summing folds. -/

theorem updateFirst_mem {pred : α → Bool} {f : α → α} {l : List α} {x : α}
    (h : x ∈ updateFirst pred f l) : x ∈ l ∨ ∃ y ∈ l, x = f y := by
  induction l with
  | nil => simp [updateFirst] at h
  | cons a t ih =>
    by_cases ha : pred a
    · simp [updateFirst, ha] at h
      rcases h with h | h
      · exact Or.inr ⟨a, by simp, h⟩
      · exact Or.inl (List.mem_cons_of_mem _ h)
    · simp [updateFirst, ha] at h
      rcases h with h | h
      · exact Or.inl (by simp [h])
      · rcases ih h with h2 | ⟨y, hy, hxy⟩
        · exact Or.inl (List.mem_cons_of_mem _ h2)
        · exact Or.inr ⟨y, List.mem_cons_of_mem _ hy, hxy⟩

theorem updateFirst_append_left {pred : α → Bool} {f : α → α} {l₁ l₂ : List α}
    (h : ∀ x ∈ l₁, pred x = false) :
    updateFirst pred f (l₁ ++ l₂) = l₁ ++ updateFirst pred f l₂ := by
  induction l₁ with
  | nil => rfl
  | cons a t ih =>
    have ha : pred a = false := h a (by simp)
    have ht : ∀ x ∈ t, pred x = false := fun x hx => h x (by simp [hx])
    simp [updateFirst, ha, ih ht]

theorem updateFirst_cons_pos {pred : α → Bool} {f : α → α} {x : α} {l : List α}
    (h : pred x = true) : updateFirst pred f (x :: l) = f x :: l := by
  simp [updateFirst, h]

theorem find?_append_left {pred : α → Bool} {l₁ l₂ : List α}
    (h : ∀ x ∈ l₁, pred x = false) :
    (l₁ ++ l₂).find? pred = l₂.find? pred := by
  rw [List.find?_append]
  have h1 : l₁.find? pred = none := List.find?_eq_none.mpr (by
    intro x hx
    simp [h x hx])
  simp [h1]

theorem first_match_decomp (pred : α → Bool) (l : List α) :
    (∀ x ∈ l, pred x = false) ∨
      ∃ l₁ x l₂, l = l₁ ++ x :: l₂ ∧ (∀ y ∈ l₁, pred y = false) ∧ pred x = true := by
  induction l with
  | nil => exact Or.inl (by simp)
  | cons a t ih =>
    by_cases ha : pred a
    · exact Or.inr ⟨[], a, t, by simp, by simp, ha⟩
    · rcases ih with h | ⟨l₁, x, l₂, rfl, h₁, h₂⟩
      · refine Or.inl ?_
        intro x hx
        rcases List.mem_cons.mp hx with rfl | hx
        · exact Bool.eq_false_iff.mpr ha
        · exact h x hx
      · refine Or.inr ⟨a :: l₁, x, l₂, by simp, ?_, h₂⟩
        intro y hy
        rcases List.mem_cons.mp hy with rfl | hy
        · exact Bool.eq_false_iff.mpr ha
        · exact h₁ y hy

theorem foldl_add_stock (ss : List SizeVariant) (i : Int) :
    ss.foldl (fun t sv => t + sv.stock) i = i + (ss.map SizeVariant.stock).sum := by
  induction ss generalizing i with
  | nil => simp
  | cons a t ih => simp [ih, add_assoc]

/-! Normalization of the three read-side queries into list sums and
existentials. -/

theorem foldl_total_eq (vs : List ColorVariant) (i : Int) :
    vs.foldl (fun total v =>
        if v.sizes.length > 0 then
          v.sizes.foldl (fun t sv => t + sv.stock) total
        else total) i
      = i + (vs.map (fun v => (v.sizes.map SizeVariant.stock).sum)).sum := by
  induction vs generalizing i with
  | nil => simp
  | cons a t ih =>
    by_cases h : a.sizes.length > 0
    · rw [List.foldl_cons, if_pos h, foldl_add_stock, ih, List.map_cons,
        List.sum_cons, add_assoc]
    · have ha : a.sizes = [] := List.length_eq_zero.mp (by omega)
      rw [List.foldl_cons, if_neg h, ih, List.map_cons, List.sum_cons]
      simp [ha]

theorem totalStock_eq_spec (p : Product) : totalStock p = specTotalStock p := by
  unfold totalStock specTotalStock
  cases hv : p.variants with
  | none => simp
  | some vs =>
    by_cases h0 : vs.length == 0
    · have : vs = [] := List.length_eq_zero.mp (by simpa using h0)
      simp [h0, this]
    · simp only [h0, Option.getD_some, if_false, Bool.false_eq_true]
      rw [foldl_total_eq]
      simp

theorem foldl_bySize_eq (s : SizeVal) (vs : List ColorVariant) (i : Int) :
    vs.foldl (fun total v =>
        if v.sizes.length > 0 then
          match v.sizes.find? (fun sv => sv.size == s) with
          | some sv => total + sv.stock
          | none => total
        else total) i
      = i + (vs.map (colorFindStock s)).sum := by
  induction vs generalizing i with
  | nil => simp
  | cons a t ih =>
    by_cases h : a.sizes.length > 0
    · cases hf : a.sizes.find? (fun sv => sv.size == s) with
      | none =>
        rw [List.foldl_cons, if_pos h, hf, ih, List.map_cons, List.sum_cons]
        simp [colorFindStock, hf]
      | some sv =>
        rw [List.foldl_cons, if_pos h, hf, ih, List.map_cons, List.sum_cons]
        simp [colorFindStock, hf, add_assoc]
    · have ha : a.sizes = [] := List.length_eq_zero.mp (by omega)
      rw [List.foldl_cons, if_neg h, ih, List.map_cons, List.sum_cons]
      simp [colorFindStock, ha]

theorem getStockBySize_eq_sum (p : Product) (s : SizeVal) :
    getStockBySize p s = ((p.variants.getD []).map (colorFindStock s)).sum := by
  unfold getStockBySize
  cases hv : p.variants with
  | none => simp
  | some vs =>
    by_cases h0 : vs.length == 0
    · have : vs = [] := List.length_eq_zero.mp (by simpa using h0)
      simp [h0, this]
    · simp only [h0, Option.getD_some, if_false, Bool.false_eq_true]
      rw [foldl_bySize_eq]
      simp

theorem inStock_iff_hasPositiveSlot (p : Product) :
    inStock p = true ↔ hasPositiveSlot p := by
  unfold inStock hasPositiveSlot
  cases hv : p.variants with
  | none => simp
  | some vs =>
    by_cases h0 : vs.length == 0
    · have : vs = [] := List.length_eq_zero.mp (by simpa using h0)
      simp [h0, this]
    · simp only [h0, Option.getD_some, if_false, Bool.false_eq_true]
      rw [List.any_eq_true]
      constructor
      · rintro ⟨v, hv2, hpos⟩
        by_cases hlen : v.sizes.length > 0
        · simp only [hlen, if_true] at hpos
          rcases List.any_eq_true.mp hpos with ⟨sv, hsv, hst⟩
          exact ⟨v, hv2, sv, hsv, by simpa using hst⟩
        · simp [hlen] at hpos
      · rintro ⟨v, hv2, sv, hsv, hst⟩
        refine ⟨v, hv2, ?_⟩
        have hlen : v.sizes.length > 0 :=
          List.length_pos.mpr (List.ne_nil_of_mem hsv)
        simp only [hlen, if_true]
        exact List.any_eq_true.mpr ⟨sv, hsv, by simpa using hst⟩

/-! Characterization of one `updateStock` call by the three possible shapes
of the addressed (color, size) slot: the color is absent, the color exists
but the size is absent inside it, or the slot exists. -/

theorem ensureColor_fresh {vs : List ColorVariant} {c : String}
    (h : ∀ v ∈ vs, v.color ≠ c) :
    ensureColor vs c = vs ++ [{ color := c, sizes := [] }] := by
  unfold ensureColor
  have ha : vs.any (fun v => v.color == c) = false :=
    List.any_eq_false.mpr (fun v hv => by simp [h v hv])
  simp [ha]

theorem ensureColor_found {vs : List ColorVariant} {c : String}
    {v : ColorVariant} (hv : v ∈ vs) (hc : v.color = c) :
    ensureColor vs c = vs := by
  unfold ensureColor
  have ha : vs.any (fun u => u.color == c) = true :=
    List.any_eq_true.mpr ⟨v, hv, by simp [hc]⟩
  simp [ha]

theorem ensureSize_fresh {ss : List SizeVariant} {s : SizeVal}
    (h : ∀ sv ∈ ss, sv.size ≠ s) :
    ensureSize ss s = ss ++ [{ size := s, stock := 0 }] := by
  unfold ensureSize
  have ha : ss.any (fun sv => sv.size == s) = false :=
    List.any_eq_false.mpr (fun sv hsv => by simp [h sv hsv])
  simp [ha]

theorem ensureSize_found {ss : List SizeVariant} {s : SizeVal}
    {sv : SizeVariant} (hv : sv ∈ ss) (hs : sv.size = s) :
    ensureSize ss s = ss := by
  unfold ensureSize
  have ha : ss.any (fun u => u.size == s) = true :=
    List.any_eq_true.mpr ⟨sv, hv, by simp [hs]⟩
  simp [ha]

theorem ensureSlot_fresh_color {vs : List ColorVariant} {c : String}
    {s : SizeVal} (h : ∀ v ∈ vs, v.color ≠ c) :
    ensureSlot vs c s
      = vs ++ [{ color := c, sizes := [{ size := s, stock := 0 }] }] := by
  unfold ensureSlot
  rw [ensureColor_fresh h,
    updateFirst_append_left (fun v hv => by simp [h v hv]),
    updateFirst_cons_pos (by simp)]
  simp [ensureSize]

theorem ensureSlot_found_color {A B : List ColorVariant} {v : ColorVariant}
    {c : String} {s : SizeVal}
    (hA : ∀ u ∈ A, u.color ≠ c) (hv : v.color = c) :
    ensureSlot (A ++ v :: B) c s
      = A ++ { v with sizes := ensureSize v.sizes s } :: B := by
  unfold ensureSlot
  rw [@ensureColor_found (A ++ v :: B) c v (by simp) hv,
    updateFirst_append_left (fun u hu => by simp [hA u hu]),
    updateFirst_cons_pos (by simp [hv])]

theorem slotStock_of_decomp {A B : List ColorVariant} {v : ColorVariant}
    {c : String} {s : SizeVal}
    (hA : ∀ u ∈ A, u.color ≠ c) (hv : v.color = c) :
    slotStock (A ++ v :: B) c s
      = match v.sizes.find? (fun sv => sv.size == s) with
        | some sv => sv.stock
        | none => 0 := by
  unfold slotStock
  rw [find?_append_left (fun u hu => by simp [hA u hu]),
    List.find?_cons_of_pos _ (by simp [hv])]

theorem slotStock_fresh_color {vs : List ColorVariant} {c : String}
    {s : SizeVal} (h : ∀ v ∈ vs, v.color ≠ c) :
    slotStock (vs ++ [{ color := c, sizes := [{ size := s, stock := 0 }] }]) c s
      = 0 := by
  rw [slotStock_of_decomp h rfl]
  simp [List.find?]

theorem writeSlot_of_decomp {A B : List ColorVariant} {v : ColorVariant}
    {c : String} {s : SizeVal} {n : Int}
    (hA : ∀ u ∈ A, u.color ≠ c) (hv : v.color = c) :
    writeSlot (A ++ v :: B) c s n
      = A ++ { v with sizes := (updateFirst (fun sv => sv.size == s)
                  (fun sv => { sv with stock := n }) v.sizes) } :: B := by
  unfold writeSlot
  rw [updateFirst_append_left (fun u hu => by simp [hA u hu]),
    updateFirst_cons_pos (by simp [hv])]

theorem writeSlot_fresh_color {vs : List ColorVariant} {c : String}
    {s : SizeVal} {n : Int} (h : ∀ v ∈ vs, v.color ≠ c) :
    writeSlot (vs ++ [{ color := c, sizes := [{ size := s, stock := 0 }] }]) c s n
      = vs ++ [{ color := c, sizes := [{ size := s, stock := n }] }] := by
  rw [writeSlot_of_decomp h rfl]
  simp [updateFirst]

/-- Case 1: no color variant matches. The call appends a fresh color with
the single fresh size; a negative quantity fails against available 0. -/
theorem updateStock_fresh_color (p : Product) (c : String) (s : SizeVal)
    (q : Int) (h : ∀ v ∈ p.variants.getD [], v.color ≠ c) :
    updateStock p c s q =
      if q < 0 then
        ({ p with variants := some ((p.variants.getD []) ++
            [{ color := c, sizes := [{ size := s, stock := 0 }] }]) },
         .error { color := c, size := s, available := 0, requested := q })
      else
        ({ p with variants := some ((p.variants.getD []) ++
            [{ color := c, sizes := [{ size := s, stock := q }] }]) },
         .ok { p with variants := some ((p.variants.getD []) ++
            [{ color := c, sizes := [{ size := s, stock := q }] }]) }) := by
  unfold updateStock
  rw [ensureSlot_fresh_color h]
  simp only []
  rw [slotStock_fresh_color h, zero_add, writeSlot_fresh_color h]

/-- Case 2: the color exists (first match `v`, preceded by `A`) but no size
inside it matches. The call appends a fresh size at the end of that color's
sizes; a negative quantity fails against available 0. -/
theorem updateStock_fresh_size (p : Product) (c : String) (s : SizeVal)
    (q : Int) (A B : List ColorVariant) (v : ColorVariant)
    (hvs : p.variants.getD [] = A ++ v :: B)
    (hA : ∀ u ∈ A, u.color ≠ c) (hv : v.color = c)
    (hs : ∀ sv ∈ v.sizes, sv.size ≠ s) :
    updateStock p c s q =
      if q < 0 then
        ({ p with variants := some (A ++
            { v with sizes := v.sizes ++ [{ size := s, stock := 0 }] } :: B) },
         .error { color := c, size := s, available := 0, requested := q })
      else
        ({ p with variants := some (A ++
            { v with sizes := v.sizes ++ [{ size := s, stock := q }] } :: B) },
         .ok { p with variants := some (A ++
            { v with sizes := v.sizes ++ [{ size := s, stock := q }] } :: B) }) := by
  unfold updateStock
  rw [hvs, ensureSlot_found_color hA hv, ensureSize_fresh hs]
  simp only []
  have e2 : slotStock (A ++ { v with sizes :=
      v.sizes ++ [{ size := s, stock := 0 }] } :: B) c s = 0 := by
    rw [slotStock_of_decomp hA (by simpa using hv),
      find?_append_left (fun u hu => by simp [hs u hu])]
    simp [List.find?]
  rw [e2, zero_add]
  have e3 : writeSlot (A ++ { v with sizes :=
      v.sizes ++ [{ size := s, stock := 0 }] } :: B) c s q
      = A ++ { v with sizes := v.sizes ++ [{ size := s, stock := q }] } :: B := by
    rw [writeSlot_of_decomp hA (by simpa using hv),
      updateFirst_append_left (fun u hu => by simp [hs u hu]),
      updateFirst_cons_pos (by simp)]
  rw [e3]

/-- Case 3: the slot exists: first matching color `v` (preceded by `A`),
first matching size `sv` inside it (preceded by `sa`). No node is created;
the call fails iff the slot's stock plus the quantity is negative, and on
success only that slot's stock changes. -/
theorem updateStock_existing_slot (p : Product) (c : String) (s : SizeVal)
    (q : Int) (A B : List ColorVariant) (v : ColorVariant)
    (sa sb : List SizeVariant) (sv : SizeVariant)
    (hvs : p.variants.getD [] = A ++ v :: B)
    (hA : ∀ u ∈ A, u.color ≠ c) (hv : v.color = c)
    (hsz : v.sizes = sa ++ sv :: sb)
    (hsa : ∀ u ∈ sa, u.size ≠ s) (hsv : sv.size = s) :
    updateStock p c s q =
      if sv.stock + q < 0 then
        ({ p with variants := some (A ++ v :: B) },
         .error { color := c, size := s, available := sv.stock, requested := q })
      else
        ({ p with variants := some (A ++
            { v with sizes := sa ++ { sv with stock := sv.stock + q } :: sb } :: B) },
         .ok { p with variants := some (A ++
            { v with sizes := sa ++ { sv with stock := sv.stock + q } :: sb } :: B) }) := by
  unfold updateStock
  have hmem : sv ∈ v.sizes := by rw [hsz]; simp
  rw [hvs, ensureSlot_found_color hA hv, ensureSize_found hmem hsv,
    show ({ color := v.color, sizes := v.sizes } : ColorVariant) = v from rfl]
  simp only []
  have e2 : slotStock (A ++ v :: B) c s = sv.stock := by
    rw [slotStock_of_decomp hA hv, hsz,
      find?_append_left (fun u hu => by simp [hsa u hu]),
      List.find?_cons_of_pos _ (by simp [hsv])]
  rw [e2]
  have e3 : writeSlot (A ++ v :: B) c s (sv.stock + q)
      = A ++ { v with sizes :=
          sa ++ { sv with stock := sv.stock + q } :: sb } :: B := by
    rw [writeSlot_of_decomp hA hv, hsz,
      updateFirst_append_left (fun u hu => by simp [hsa u hu]),
      updateFirst_cons_pos (by simp [hsv])]
  rw [e3]

/-! Membership and nonnegativity lemmas feeding the invariant claim. -/

theorem mem_ensureColor {vs : List ColorVariant} {c : String}
    {v : ColorVariant} (h : v ∈ ensureColor vs c) :
    v ∈ vs ∨ v = { color := c, sizes := [] } := by
  unfold ensureColor at h
  split at h
  · exact Or.inl h
  · rcases List.mem_append.mp h with h2 | h2
    · exact Or.inl h2
    · exact Or.inr (by simpa using h2)

theorem mem_ensureSize {ss : List SizeVariant} {s : SizeVal}
    {sv : SizeVariant} (h : sv ∈ ensureSize ss s) :
    sv ∈ ss ∨ sv = { size := s, stock := 0 } := by
  unfold ensureSize at h
  split at h
  · exact Or.inl h
  · rcases List.mem_append.mp h with h2 | h2
    · exact Or.inl h2
    · exact Or.inr (by simpa using h2)

theorem ensureSlot_nonneg {vs : List ColorVariant} {c : String} {s : SizeVal}
    (h : ∀ v ∈ vs, ∀ sv ∈ v.sizes, 0 ≤ sv.stock) :
    ∀ v ∈ ensureSlot vs c s, ∀ sv ∈ v.sizes, 0 ≤ sv.stock := by
  intro v hv sv hsv
  unfold ensureSlot at hv
  rcases updateFirst_mem hv with hv2 | ⟨y, hy, rfl⟩
  · rcases mem_ensureColor hv2 with hv3 | rfl
    · exact h v hv3 sv hsv
    · simp at hsv
  · rcases mem_ensureSize hsv with hs2 | rfl
    · rcases mem_ensureColor hy with hy2 | rfl
      · exact h y hy2 sv hs2
      · simp at hs2
    · simp

theorem writeSlot_nonneg {vs : List ColorVariant} {c : String} {s : SizeVal}
    {n : Int} (hn : 0 ≤ n) (h : ∀ v ∈ vs, ∀ sv ∈ v.sizes, 0 ≤ sv.stock) :
    ∀ v ∈ writeSlot vs c s n, ∀ sv ∈ v.sizes, 0 ≤ sv.stock := by
  intro v hv sv hsv
  unfold writeSlot at hv
  rcases updateFirst_mem hv with hv2 | ⟨y, hy, rfl⟩
  · exact h v hv2 sv hsv
  · rcases updateFirst_mem hsv with hs2 | ⟨u, hu, rfl⟩
    · exact h y hy sv hs2
    · exact hn

theorem allStocksNonneg_step (p : Product) (c : String) (s : SizeVal)
    (q : Int) (h : allStocksNonneg p) :
    allStocksNonneg (updateStock p c s q).1 := by
  unfold allStocksNonneg at h ⊢
  unfold updateStock
  simp only []
  by_cases hneg : slotStock (ensureSlot (p.variants.getD []) c s) c s + q < 0
  · rw [if_pos hneg]
    simpa using ensureSlot_nonneg h
  · rw [if_neg hneg]
    have hn : 0 ≤ slotStock (ensureSlot (p.variants.getD []) c s) c s + q := by
      omega
    simpa using writeSlot_nonneg hn (ensureSlot_nonneg h)

theorem allStocksNonneg_runDeltas (cmds : List (String × SizeVal × Int)) :
    ∀ p, allStocksNonneg p → allStocksNonneg (runDeltas p cmds) := by
  induction cmds with
  | nil => exact fun p h => h
  | cons t rest ih =>
    intro p h
    obtain ⟨c, s, q⟩ := t
    exact ih _ (allStocksNonneg_step p c s q h)

/-- C1: for every product and every sequence of `updateStock` calls on it,
if every size slot's stock is nonnegative initially, then at every
observable point of the sequence (after any prefix of the calls, failed
calls included — a failed call only ever appends zero-stock slots) every
size slot's stock is still nonnegative. -/
theorem claim_stock_invariant (p : Product)
    (cmds : List (String × SizeVal × Int)) (i : Nat)
    (h : allStocksNonneg p) : allStocksNonneg (runDeltas p (cmds.take i)) :=
  allStocksNonneg_runDeltas (cmds.take i) p h

theorem claim_stock_invariant_witness :
    allStocksNonneg ⟨some [⟨"black", [⟨.num 8, 5⟩]⟩]⟩ ∧
    allStocksNonneg (runDeltas ⟨some [⟨"black", [⟨.num 8, 5⟩]⟩]⟩
      (List.take 3 [("black", SizeVal.num 8, (-5 : Int)),
        ("black", SizeVal.num 8, (-1 : Int)),
        ("red", SizeVal.str "M", (2 : Int))])) :=
  ⟨by decide, claim_stock_invariant _ _ 3 (by decide)⟩

/-- C4: `totalStock` equals the sum of `stock` over every SizeVariant in
every ColorVariant, and is 0 for an absent or empty variants array. -/
theorem claim_totalStock_correct (p : Product) :
    totalStock p = specTotalStock p ∧
    totalStock { variants := none } = 0 ∧
    totalStock { variants := some [] } = 0 :=
  ⟨totalStock_eq_spec p, rfl, rfl⟩

/-- C6: `inStock` is true iff some size slot in some color has positive
stock, and is false for an absent or empty variants array. -/
theorem claim_inStock_correct (p : Product) :
    (inStock p = true ↔ hasPositiveSlot p) ∧
    inStock { variants := none } = false ∧
    inStock { variants := some [] } = false :=
  ⟨inStock_iff_hasPositiveSlot p, rfl, rfl⟩

theorem findStock_of_unique (s : SizeVal) (ss : List SizeVariant)
    (h : ss.Pairwise (fun a b => a.size ≠ b.size)) :
    (match ss.find? (fun sv => sv.size == s) with
      | some sv => sv.stock
      | none => 0)
      = ((ss.filter (fun sv => sv.size == s)).map SizeVariant.stock).sum := by
  induction ss with
  | nil => simp
  | cons a t ih =>
    rcases List.pairwise_cons.mp h with ⟨ha, ht⟩
    by_cases hs : a.size = s
    · rw [List.find?_cons_of_pos _ (by simp [hs])]
      have hfilter : t.filter (fun sv => sv.size == s) = [] := by
        refine List.filter_eq_nil_iff.mpr ?_
        intro b hb
        have : a.size ≠ b.size := ha b hb
        simp [hs ▸ this.symm]
      rw [List.filter_cons_of_pos (by simp [hs]), hfilter]
      simp
    · rw [List.find?_cons_of_neg _ (by simp [hs]), ih ht,
        List.filter_cons_of_neg (by simp [hs])]

/-- C5: under the schema's per-color size uniqueness, `getStockBySize`
equals the sum of `stock` over every size slot across all colors whose
size strictly matches the input, however many colors exist. -/
theorem claim_stockBySize_correct (p : Product) (s : SizeVal)
    (h : sizesUniquePerColor p) :
    getStockBySize p s = specStockBySize p s := by
  rw [getStockBySize_eq_sum]
  unfold specStockBySize
  congr 1
  refine List.map_congr_left ?_
  intro v hv
  exact findStock_of_unique s v.sizes (h v hv)

theorem claim_stockBySize_correct_witness :
    sizesUniquePerColor ⟨some [⟨"black", [⟨.num 8, 5⟩, ⟨.str "8", 2⟩]⟩,
      ⟨"red", [⟨.num 8, 3⟩]⟩]⟩ ∧
    getStockBySize ⟨some [⟨"black", [⟨.num 8, 5⟩, ⟨.str "8", 2⟩]⟩,
      ⟨"red", [⟨.num 8, 3⟩]⟩]⟩ (.num 8)
      = specStockBySize ⟨some [⟨"black", [⟨.num 8, 5⟩, ⟨.str "8", 2⟩]⟩,
          ⟨"red", [⟨.num 8, 3⟩]⟩]⟩ (.num 8) :=
  ⟨by decide, claim_stockBySize_correct _ _ (by decide)⟩

/-- C10: on a product whose variants array is absent, `updateStock` does
not fail on that account: it initializes the array to empty and runs the
normal find-or-create and delta logic, so a positive delta succeeds and
yields exactly one color holding one size with the delta as its stock. -/
theorem claim_absent_variants_initialized (p : Product) (c : String)
    (s : SizeVal) (q : Int) (hp : p.variants = none) (hq : 0 < q) :
    updateStock p c s q
      = (⟨some [⟨c, [⟨s, q⟩]⟩]⟩, .ok ⟨some [⟨c, [⟨s, q⟩]⟩]⟩) := by
  have h : ∀ v ∈ p.variants.getD [], v.color ≠ c := by simp [hp]
  rw [updateStock_fresh_color p c s q h, if_neg (by omega)]
  simp [hp]

theorem claim_absent_variants_initialized_witness :
    (⟨none⟩ : Product).variants = none ∧ (0 : Int) < 3 ∧
    updateStock ⟨none⟩ "red" (.num 9) 3
      = (⟨some [⟨"red", [⟨.num 9, 3⟩]⟩]⟩, .ok ⟨some [⟨"red", [⟨.num 9, 3⟩]⟩]⟩) :=
  ⟨rfl, by decide,
    claim_absent_variants_initialized ⟨none⟩ "red" (.num 9) 3 rfl (by decide)⟩

/-! The find-or-create steps change no stock value: what they append holds
stock 0. These lemmas make that observable through `totalStock`,
`getStockBySize` and the addressed slot itself. -/

theorem slotStock_ensureSlot (vs : List ColorVariant) (c : String)
    (s : SizeVal) : slotStock (ensureSlot vs c s) c s = slotStock vs c s := by
  rcases first_match_decomp (fun v => v.color == c) vs with h | ⟨A, v, B, rfl, hA, hv⟩
  · have h' : ∀ v ∈ vs, v.color ≠ c := fun v hv => by simpa using h v hv
    rw [ensureSlot_fresh_color h', slotStock_fresh_color h']
    unfold slotStock
    rw [List.find?_eq_none.mpr (fun u hu => by simp [h' u hu])]
  · have hv' : v.color = c := by simpa using hv
    have hA' : ∀ u ∈ A, u.color ≠ c := fun u hu => by simpa using hA u hu
    rw [ensureSlot_found_color hA' hv',
      slotStock_of_decomp hA' (by simpa using hv'), slotStock_of_decomp hA' hv']
    by_cases hany : v.sizes.any (fun sv => sv.size == s) = true
    · rw [show ensureSize v.sizes s = v.sizes from by
        unfold ensureSize; rw [if_pos hany]]
    · have hs : ∀ u ∈ v.sizes, u.size ≠ s := by
        intro u hu
        have := List.any_eq_false.mp (Bool.eq_false_iff.mpr hany) u hu
        simpa using this
      rw [show ensureSize v.sizes s = v.sizes ++ [{ size := s, stock := 0 }] from by
        unfold ensureSize; rw [if_neg hany]]
      have hL : List.find? (fun sv => sv.size == s)
          [({ size := s, stock := 0 } : SizeVariant)] = some ⟨s, 0⟩ := by
        simp [List.find?]
      have hR : List.find? (fun sv => sv.size == s) v.sizes = none :=
        List.find?_eq_none.mpr (fun u hu => by simp [hs u hu])
      rw [find?_append_left (fun u hu => by simp [hs u hu]), hL, hR]

theorem sum_stocks_ensureSize (ss : List SizeVariant) (s : SizeVal) :
    ((ensureSize ss s).map SizeVariant.stock).sum
      = (ss.map SizeVariant.stock).sum := by
  unfold ensureSize
  split
  · rfl
  · simp

theorem findStock_ensureSize (ss : List SizeVariant) (s t : SizeVal) :
    (match (ensureSize ss s).find? (fun sv => sv.size == t) with
      | some sv => sv.stock
      | none => 0)
      = (match ss.find? (fun sv => sv.size == t) with
          | some sv => sv.stock
          | none => 0) := by
  by_cases hany : ss.any (fun sv => sv.size == s) = true
  · rw [show ensureSize ss s = ss from by unfold ensureSize; rw [if_pos hany]]
  · have hs : ∀ u ∈ ss, u.size ≠ s := by
      intro u hu
      have := List.any_eq_false.mp (Bool.eq_false_iff.mpr hany) u hu
      simpa using this
    rw [show ensureSize ss s = ss ++ [{ size := s, stock := 0 }] from by
      unfold ensureSize; rw [if_neg hany]]
    by_cases hts : t = s
    · subst hts
      have hL : List.find? (fun sv => sv.size == t)
          [({ size := t, stock := 0 } : SizeVariant)] = some ⟨t, 0⟩ := by
        simp [List.find?]
      have hR : List.find? (fun sv => sv.size == t) ss = none :=
        List.find?_eq_none.mpr (fun u hu => by simp [hs u hu])
      rw [find?_append_left (fun u hu => by simp [hs u hu]), hL, hR]
    · rw [List.find?_append]
      have hb : (s == t) = false :=
        beq_eq_false_iff_ne.mpr (fun h => hts h.symm)
      have h2 : List.find? (fun sv => sv.size == t)
          [({ size := s, stock := 0 } : SizeVariant)] = none := by
        simp [List.find?, hb]
      rw [h2]
      cases ss.find? (fun sv => sv.size == t) <;> simp

theorem colorFindStock_singleton_zero (c : String) (s t : SizeVal) :
    colorFindStock t ⟨c, [⟨s, 0⟩]⟩ = 0 := by
  unfold colorFindStock
  by_cases hts : s = t
  · simp [List.find?, hts]
  · have hb : (s == t) = false := beq_eq_false_iff_ne.mpr hts
    simp [List.find?, hb]

theorem sum_cols_ensureSlot (vs : List ColorVariant) (c : String)
    (s : SizeVal) :
    ((ensureSlot vs c s).map (fun v => (v.sizes.map SizeVariant.stock).sum)).sum
      = (vs.map (fun v => (v.sizes.map SizeVariant.stock).sum)).sum := by
  rcases first_match_decomp (fun v => v.color == c) vs with h | ⟨A, v, B, rfl, hA, hv⟩
  · have h' : ∀ v ∈ vs, v.color ≠ c := fun v hv => by simpa using h v hv
    rw [ensureSlot_fresh_color h']
    simp
  · have hv' : v.color = c := by simpa using hv
    have hA' : ∀ u ∈ A, u.color ≠ c := fun u hu => by simpa using hA u hu
    rw [ensureSlot_found_color hA' hv']
    simp [sum_stocks_ensureSize]

theorem findSum_cols_ensureSlot (vs : List ColorVariant) (c : String)
    (s t : SizeVal) :
    ((ensureSlot vs c s).map (colorFindStock t)).sum
      = (vs.map (colorFindStock t)).sum := by
  rcases first_match_decomp (fun v => v.color == c) vs with h | ⟨A, v, B, rfl, hA, hv⟩
  · have h' : ∀ v ∈ vs, v.color ≠ c := fun v hv => by simpa using h v hv
    rw [ensureSlot_fresh_color h']
    simp [colorFindStock_singleton_zero]
  · have hv' : v.color = c := by simpa using hv
    have hA' : ∀ u ∈ A, u.color ≠ c := fun u hu => by simpa using hA u hu
    rw [ensureSlot_found_color hA' hv']
    have hcf : colorFindStock t { v with sizes := ensureSize v.sizes s }
        = colorFindStock t v := by
      unfold colorFindStock
      exact findStock_ensureSize v.sizes s t
    simp [hcf]

/-- C2 (amended): `updateStock` fails exactly when the addressed slot's
pre-delta stock plus the quantity is negative (the pre-delta stock of a
freshly created slot being 0); the failure carries the color, the size,
the pre-delta stock and the requested quantity; on failure no stock value
changes — the invariant check precedes the stock write, and the save is
never reached — although the in-memory document may have gained zero-stock
slots from the find-or-create pushes, which precede the check. -/
theorem claim_insufficient_stock (p : Product) (c : String) (s : SizeVal)
    (q : Int) :
    if currentStockOf p c s + q < 0 then
      (updateStock p c s q).2 = .error ⟨c, s, currentStockOf p c s, q⟩ ∧
        totalStock (updateStock p c s q).1 = totalStock p ∧
        (∀ t, getStockBySize (updateStock p c s q).1 t = getStockBySize p t)
    else ∃ p2, (updateStock p c s q).2 = .ok p2 := by
  unfold updateStock currentStockOf
  simp only []
  rw [slotStock_ensureSlot]
  by_cases hneg : slotStock (p.variants.getD []) c s + q < 0
  · rw [if_pos hneg, if_pos hneg]
    refine ⟨rfl, ?_, ?_⟩
    · rw [totalStock_eq_spec, totalStock_eq_spec]
      unfold specTotalStock
      simpa using sum_cols_ensureSlot (p.variants.getD []) c s
    · intro t
      rw [getStockBySize_eq_sum, getStockBySize_eq_sum]
      simpa using findSum_cols_ensureSlot (p.variants.getD []) c s t
  · rw [if_neg hneg, if_neg hneg]
    exact ⟨_, rfl⟩

theorem claim_insufficient_stock_witness :
    (updateStock ⟨some [⟨"black", [⟨.num 8, 5⟩]⟩]⟩ "black" (.num 8) (-10)).2
      = .error ⟨"black", .num 8, 5, -10⟩ := by
  have h := claim_insufficient_stock ⟨some [⟨"black", [⟨.num 8, 5⟩]⟩]⟩
    "black" (.num 8) (-10)
  rw [if_pos (by decide)] at h
  exact h.1

/-- C2 counterexample: on a failing call addressed to a fresh slot the
in-memory product is NOT left unmodified: the find-or-create pushes happen
before the invariant check, so the document gains a zero-stock slot that
survives the throw (only the persisted state is untouched, since the save
is never reached). -/
theorem claim_insufficient_stock_counterexample :
    (updateStock ⟨some []⟩ "red" (.num 8) (-1)).2
        = .error ⟨"red", .num 8, 0, -1⟩ ∧
    (updateStock ⟨some []⟩ "red" (.num 8) (-1)).1
        = ⟨some [⟨"red", [⟨.num 8, 0⟩]⟩]⟩ ∧
    (updateStock ⟨some []⟩ "red" (.num 8) (-1)).1 ≠ ⟨some []⟩ :=
  ⟨rfl, rfl, by decide⟩

/-- C3: the find-or-create discipline of `updateStock`, stated over the
saved product for each shape of the pre-call variants array. If no color
matches, a new color is appended at the end (no sorting) and its fresh
size — created at stock 0 — ends at 0 + q = q. If the first matching color
exists but no size in it matches, the fresh size is appended at the end of
that color's sizes and ends at q. If the slot exists, its stock becomes
its pre-delta value plus the quantity. In every case all other colors and
sizes are kept verbatim, in their original order. -/
theorem claim_find_or_create_structure (p : Product) (c : String)
    (s : SizeVal) (q : Int) (p2 : Product)
    (hok : (updateStock p c s q).2 = .ok p2) :
    ((∀ v ∈ p.variants.getD [], v.color ≠ c) →
        p2.variants = some ((p.variants.getD []) ++ [⟨c, [⟨s, q⟩]⟩])) ∧
    (∀ A B v, p.variants.getD [] = A ++ v :: B →
      (∀ u ∈ A, u.color ≠ c) → v.color = c →
      ((∀ sv ∈ v.sizes, sv.size ≠ s) →
          p2.variants = some (A ++
            { v with sizes := v.sizes ++ [⟨s, q⟩] } :: B)) ∧
      (∀ sa sb sv, v.sizes = sa ++ sv :: sb →
        (∀ u ∈ sa, u.size ≠ s) → sv.size = s →
        p2.variants = some (A ++
          { v with sizes :=
              sa ++ { sv with stock := sv.stock + q } :: sb } :: B))) := by
  constructor
  · intro h
    rw [updateStock_fresh_color p c s q h] at hok
    by_cases hq : q < 0
    · rw [if_pos hq] at hok
      simp at hok
    · rw [if_neg hq] at hok
      have := Except.ok.inj hok
      rw [← this]
  · intro A B v hvs hA hv
    constructor
    · intro hs
      rw [updateStock_fresh_size p c s q A B v hvs hA hv hs] at hok
      by_cases hq : q < 0
      · rw [if_pos hq] at hok
        simp at hok
      · rw [if_neg hq] at hok
        have := Except.ok.inj hok
        rw [← this]
    · intro sa sb sv hsz hsa hsv
      rw [updateStock_existing_slot p c s q A B v sa sb sv hvs hA hv hsz hsa hsv]
        at hok
      by_cases hneg : sv.stock + q < 0
      · rw [if_pos hneg] at hok
        simp at hok
      · rw [if_neg hneg] at hok
        have := Except.ok.inj hok
        rw [← this]

theorem claim_find_or_create_structure_witness :
    (updateStock ⟨some [⟨"black", [⟨.str "M", 1⟩, ⟨.num 8, 5⟩]⟩]⟩ "black"
        (.num 8) (-5)).2
      = .ok ⟨some [⟨"black", [⟨.str "M", 1⟩, ⟨.num 8, 0⟩]⟩]⟩ ∧
    (⟨some [⟨"black", [⟨.str "M", 1⟩, ⟨.num 8, 0⟩]⟩]⟩ : Product).variants
      = some [⟨"black", [⟨.str "M", 1⟩, ⟨.num 8, 0⟩]⟩] := by
  have hok : (updateStock ⟨some [⟨"black", [⟨.str "M", 1⟩, ⟨.num 8, 5⟩]⟩]⟩
      "black" (.num 8) (-5)).2
      = .ok ⟨some [⟨"black", [⟨.str "M", 1⟩, ⟨.num 8, 0⟩]⟩]⟩ := rfl
  refine ⟨hok, ?_⟩
  have h := (claim_find_or_create_structure _ "black" (.num 8) (-5) _ hok).2
    [] [] ⟨"black", [⟨.str "M", 1⟩, ⟨.num 8, 5⟩]⟩ rfl (by simp) rfl
  exact h.2 [⟨.str "M", 1⟩] [] ⟨.num 8, 5⟩ rfl (by decide) rfl

/-! Frame lemmas: a successful `updateStock` at size `s` leaves every slot
of a different size untouched. -/

theorem find?_updateFirst_of_ne {pred pred2 : α → Bool} {f : α → α}
    {l : List α} (hpf : ∀ x, pred2 x = true → pred x = false ∧ pred (f x) = false) :
    (updateFirst pred2 f l).find? pred = l.find? pred := by
  induction l with
  | nil => rfl
  | cons a rest ih =>
    by_cases ha : pred2 a = true
    · rw [updateFirst_cons_pos ha,
        List.find?_cons_of_neg _ (by simp [(hpf a ha).2]),
        List.find?_cons_of_neg _ (by simp [(hpf a ha).1])]
    · have hstep : updateFirst pred2 f (a :: rest)
          = a :: updateFirst pred2 f rest := by
        simp only [updateFirst]
        rw [if_neg ha]
      rw [hstep]
      cases hpa : pred a
      · rw [List.find?_cons_of_neg _ (by simp [hpa]),
          List.find?_cons_of_neg _ (by simp [hpa]), ih]
      · rw [List.find?_cons_of_pos _ hpa, List.find?_cons_of_pos _ hpa]

theorem find?_updateFirst_same {pred : α → Bool} {f : α → α} {l : List α}
    (hp : ∀ x, pred (f x) = pred x) :
    (updateFirst pred f l).find? pred = (l.find? pred).map f := by
  induction l with
  | nil => rfl
  | cons a rest ih =>
    by_cases ha : pred a = true
    · rw [updateFirst_cons_pos ha,
        List.find?_cons_of_pos _ (by rw [hp]; exact ha),
        List.find?_cons_of_pos _ ha]
      rfl
    · have hstep : updateFirst pred f (a :: rest)
          = a :: updateFirst pred f rest := by
        simp only [updateFirst]
        rw [if_neg ha]
      rw [hstep, List.find?_cons_of_neg _ ha, List.find?_cons_of_neg _ ha, ih]

theorem map_sum_updateFirst {g : α → Int} {pred : α → Bool} {f : α → α}
    {l : List α} (hg : ∀ x, pred x = true → g (f x) = g x) :
    ((updateFirst pred f l).map g).sum = (l.map g).sum := by
  induction l with
  | nil => rfl
  | cons a rest ih =>
    by_cases ha : pred a = true
    · rw [updateFirst_cons_pos ha]
      simp [hg a ha]
    · have hstep : updateFirst pred f (a :: rest)
          = a :: updateFirst pred f rest := by
        simp only [updateFirst]
        rw [if_neg ha]
      rw [hstep]
      simp only [List.map_cons, List.sum_cons]
      rw [ih]

theorem find?_size_setStock_other {ss : List SizeVariant} {s t : SizeVal}
    (hts : t ≠ s) (n : Int) :
    List.find? (fun sv => sv.size == t)
        (updateFirst (fun sv => sv.size == s)
          (fun sv => { sv with stock := n }) ss)
      = List.find? (fun sv => sv.size == t) ss :=
  find?_updateFirst_of_ne (fun x hx => by
    have hxs : x.size = s := by simpa using hx
    constructor
    · simp [hxs]
      exact fun h => hts h.symm
    · simp [hxs]
      exact fun h => hts h.symm)

theorem slotStock_writeSlot_other (vs : List ColorVariant) (c : String)
    {s t : SizeVal} (hts : t ≠ s) (n : Int) :
    slotStock (writeSlot vs c s n) c t = slotStock vs c t := by
  unfold slotStock writeSlot
  rw [@find?_updateFirst_same ColorVariant (fun v => v.color == c)
    (fun v => { v with sizes := (updateFirst (fun sv => sv.size == s)
      (fun sv => { sv with stock := n }) v.sizes) }) vs (fun x => rfl)]
  cases hv : vs.find? (fun v => v.color == c) with
  | none => rfl
  | some v =>
    show (match List.find? (fun sv => sv.size == t)
        (updateFirst (fun sv => sv.size == s)
          (fun sv => { sv with stock := n }) v.sizes) with
      | some sv => sv.stock
      | none => 0)
      = (match List.find? (fun sv => sv.size == t) v.sizes with
        | some sv => sv.stock
        | none => 0)
    rw [find?_size_setStock_other hts]

theorem slotStock_ensureSlot_any (vs : List ColorVariant) (c : String)
    (s t : SizeVal) : slotStock (ensureSlot vs c s) c t = slotStock vs c t := by
  rcases first_match_decomp (fun v => v.color == c) vs with h | ⟨A, v, B, rfl, hA, hv⟩
  · have h' : ∀ v ∈ vs, v.color ≠ c := fun v hv => by simpa using h v hv
    have hR : slotStock vs c t = 0 := by
      unfold slotStock
      rw [List.find?_eq_none.mpr (fun u hu => by simp [h' u hu])]
    rw [ensureSlot_fresh_color h', slotStock_of_decomp h' rfl, hR]
    by_cases hts : s = t
    · simp [List.find?, hts]
    · have hb : (s == t) = false := beq_eq_false_iff_ne.mpr hts
      simp [List.find?, hb]
  · have hv' : v.color = c := by simpa using hv
    have hA' : ∀ u ∈ A, u.color ≠ c := fun u hu => by simpa using hA u hu
    rw [ensureSlot_found_color hA' hv',
      slotStock_of_decomp hA' (by simpa using hv'), slotStock_of_decomp hA' hv']
    exact findStock_ensureSize v.sizes s t

theorem findSum_cols_writeSlot (vs : List ColorVariant) (c : String)
    {s t : SizeVal} (hts : t ≠ s) (n : Int) :
    ((writeSlot vs c s n).map (colorFindStock t)).sum
      = (vs.map (colorFindStock t)).sum := by
  unfold writeSlot
  refine map_sum_updateFirst ?_
  intro v _
  unfold colorFindStock
  rw [show ({ v with sizes := (updateFirst (fun sv => sv.size == s)
      (fun sv => { sv with stock := n }) v.sizes) } : ColorVariant).sizes
      = updateFirst (fun sv => sv.size == s)
        (fun sv => { sv with stock := n }) v.sizes from rfl]
  rw [find?_updateFirst_of_ne (fun x hx => by
    have hxs : x.size = s := by simpa using hx
    constructor
    · simp [hxs]
      exact fun h => hts h.symm
    · simp [hxs]
      exact fun h => hts h.symm)]

theorem currentStockOf_mk (vs : List ColorVariant) (c : String) (t : SizeVal) :
    currentStockOf ⟨some vs⟩ c t = slotStock vs c t := rfl

theorem getStockBySize_mk (vs : List ColorVariant) (t : SizeVal) :
    getStockBySize ⟨some vs⟩ t = (vs.map (colorFindStock t)).sum :=
  getStockBySize_eq_sum ⟨some vs⟩ t

theorem updateStock_ok_frame (p : Product) (c : String) (s : SizeVal)
    (q : Int) (p2 : Product) (hok : (updateStock p c s q).2 = .ok p2)
    (t : SizeVal) (hts : t ≠ s) :
    currentStockOf p2 c t = currentStockOf p c t ∧
    getStockBySize p2 t = getStockBySize p t := by
  unfold updateStock at hok
  simp only [] at hok
  by_cases hneg : slotStock (ensureSlot (p.variants.getD []) c s) c s + q < 0
  · rw [if_pos hneg] at hok
    simp at hok
  · rw [if_neg hneg] at hok
    have hp2 := Except.ok.inj hok
    rw [← hp2]
    constructor
    · rw [currentStockOf_mk, slotStock_writeSlot_other _ _ hts,
        slotStock_ensureSlot_any]
      rfl
    · rw [getStockBySize_mk, findSum_cols_writeSlot _ _ hts,
        findSum_cols_ensureSlot, getStockBySize_eq_sum]

/-- C9: a numeric size 8 and a string size "8" are two independent slots
within the same color: a successful `updateStock` addressed to one of them
changes neither the other's slot stock nor its `getStockBySize` aggregate,
in either direction. -/
theorem claim_size_type_distinction (p : Product) (c : String) (q : Int) :
    (∀ p2, (updateStock p c (.num 8) q).2 = .ok p2 →
      currentStockOf p2 c (.str "8") = currentStockOf p c (.str "8") ∧
      getStockBySize p2 (.str "8") = getStockBySize p (.str "8")) ∧
    (∀ p2, (updateStock p c (.str "8") q).2 = .ok p2 →
      currentStockOf p2 c (.num 8) = currentStockOf p c (.num 8) ∧
      getStockBySize p2 (.num 8) = getStockBySize p (.num 8)) :=
  ⟨fun p2 hok => updateStock_ok_frame p c (.num 8) q p2 hok (.str "8") (by decide),
   fun p2 hok => updateStock_ok_frame p c (.str "8") q p2 hok (.num 8) (by decide)⟩

theorem claim_size_type_distinction_witness :
    currentStockOf
        (⟨some [⟨"black", [⟨.num 8, 7⟩, ⟨.str "8", 3⟩]⟩]⟩ : Product)
        "black" (.str "8")
      = currentStockOf (⟨some [⟨"black", [⟨.num 8, 5⟩, ⟨.str "8", 3⟩]⟩]⟩ : Product)
        "black" (.str "8") ∧
    getStockBySize (⟨some [⟨"black", [⟨.num 8, 7⟩, ⟨.str "8", 3⟩]⟩]⟩ : Product)
        (.str "8")
      = getStockBySize (⟨some [⟨"black", [⟨.num 8, 5⟩, ⟨.str "8", 3⟩]⟩]⟩ : Product)
        (.str "8") :=
  (claim_size_type_distinction
    ⟨some [⟨"black", [⟨.num 8, 5⟩, ⟨.str "8", 3⟩]⟩]⟩ "black" 2).1
    ⟨some [⟨"black", [⟨.num 8, 7⟩, ⟨.str "8", 3⟩]⟩]⟩ rfl

/-! The controller's bulk loop refines the spec's flat fold over the
triples on input its validation accepts. -/

theorem processSizeEntry_num (c : String) (st : BulkState) (n m : Int) :
    processSizeEntry c st ⟨.num n, .num m⟩ = specStep st (c, .num n, m) := by
  unfold processSizeEntry specStep
  cases hu : updateStock st.product c (.num n) m with
  | mk mem r =>
    cases r with
    | ok p2 => simp [hu, SizeVal.render]
    | error err => simp [hu, SizeVal.render]

theorem foldl_sizes_eq (c : String) (ss : List BulkSizeEntry)
    (h : ss.all entryNumeric = true) (st : BulkState) :
    ss.foldl (processSizeEntry c) st
      = (ss.filterMap (extractTriple c)).foldl specStep st := by
  induction ss generalizing st with
  | nil => rfl
  | cons e rest ih =>
    have he : entryNumeric e = true := List.all_eq_true.mp h e (by simp)
    have hrest : rest.all entryNumeric = true := by
      refine List.all_eq_true.mpr ?_
      intro x hx
      exact List.all_eq_true.mp h x (by simp [hx])
    obtain ⟨es, eq⟩ := e
    cases es with
    | num n =>
      cases eq with
      | num m =>
        rw [List.foldl_cons, processSizeEntry_num,
          show List.filterMap (extractTriple c)
              ((⟨.num n, .num m⟩ : BulkSizeEntry) :: rest)
            = (c, SizeVal.num n, m) :: rest.filterMap (extractTriple c) from by
            simp [List.filterMap_cons, extractTriple],
          List.foldl_cons]
        exact ih hrest _
      | str s2 => simp [entryNumeric] at he
      | other => simp [entryNumeric] at he
    | str s2 => simp [entryNumeric] at he
    | other => simp [entryNumeric] at he

theorem bulk_loop_eq (groups : List BulkVariantEntry)
    (h : wellFormedBulk groups = true) (st : BulkState) :
    groups.foldl processVariantEntry st
      = (flattenTriples groups).foldl specStep st := by
  induction groups generalizing st with
  | nil => rfl
  | cons g rest ih =>
    have hg : groupWellFormed g = true := List.all_eq_true.mp h g (by simp)
    have hrest : wellFormedBulk rest = true := by
      refine List.all_eq_true.mpr ?_
      intro x hx
      exact List.all_eq_true.mp h x (by simp [hx])
    obtain ⟨gc, gs⟩ := g
    cases gc with
    | str c =>
      cases gs with
      | some ss =>
        unfold groupWellFormed at hg
        rw [Bool.and_eq_true] at hg
        obtain ⟨hc0, hss⟩ := hg
        have hc : (c == "") = false := by
          simpa using hc0
        have hstep : processVariantEntry st ⟨.str c, some ss⟩
            = ss.foldl (processSizeEntry c) st := by
          unfold processVariantEntry
          simp only []
          rw [if_neg (by simp [hc])]
        have hflat : flattenTriples ((⟨.str c, some ss⟩ : BulkVariantEntry) :: rest)
            = ss.filterMap (extractTriple c) ++ flattenTriples rest := by
          unfold flattenTriples
          rw [List.flatMap_cons]
        rw [List.foldl_cons, hstep, hflat, List.foldl_append,
          foldl_sizes_eq c ss hss]
        exact ih hrest _
      | none =>
        unfold groupWellFormed at hg
        simp at hg
    | num n =>
      unfold groupWellFormed at hg
      simp at hg
    | other =>
      unfold groupWellFormed at hg
      simp at hg

/-- C7 (amended): the bulk update iterates every accepted (color, size,
quantity) triple in input order, invoking the single-delta primitive for
each independently; one triple's failure neither aborts nor rolls back
prior successes; each outcome lands in the `updates` or `errors` list; and
the batch is reported as rejected iff zero triples succeeded AND at least
one failure was recorded (an empty batch — zero successes, zero failures —
is reported as successful). -/
theorem claim_bulk_partial_success (p : Product)
    (groups : List BulkVariantEntry) (h : wellFormedBulk groups = true) :
    (updateBulkStock p groups).product
        = (applyBulkStockDeltaSpec p (flattenTriples groups)).product ∧
    (updateBulkStock p groups).updates
        = (applyBulkStockDeltaSpec p (flattenTriples groups)).updates ∧
    (updateBulkStock p groups).errors
        = (applyBulkStockDeltaSpec p (flattenTriples groups)).errors ∧
    ((updateBulkStock p groups).rejected = true ↔
      ((updateBulkStock p groups).updates = [] ∧
        (updateBulkStock p groups).errors ≠ [])) := by
  have hmain : groups.foldl processVariantEntry
      { product := p, updates := [], errors := [] }
      = applyBulkStockDeltaSpec p (flattenTriples groups) :=
    bulk_loop_eq groups h _
  unfold updateBulkStock
  simp only []
  rw [hmain]
  refine ⟨rfl, rfl, rfl, ?_⟩
  rw [Bool.and_eq_true]
  constructor
  · rintro ⟨h1, h2⟩
    constructor
    · exact List.length_eq_zero.mp (by simpa using h2)
    · intro hnil
      rw [hnil] at h1
      simp at h1
  · rintro ⟨h1, h2⟩
    constructor
    · simpa using List.length_pos.mpr h2
    · simp [h1]

/-- C7 counterexample to the claim's "rejected iff zero triples succeeded":
an empty bulk body has zero successful triples, yet the controller reports
it as successful (200, "Stock updated for 0 color-size combination(s)"),
not as a rejected batch. -/
theorem claim_bulk_partial_success_counterexample :
    (updateBulkStock ⟨some []⟩ []).updates = [] ∧
    (updateBulkStock ⟨some []⟩ []).rejected = false := by
  exact ⟨rfl, rfl⟩

theorem claim_bulk_partial_success_witness :
    wellFormedBulk [⟨.str "black", some [⟨.num 8, .num 5⟩, ⟨.num 9, .num (-1)⟩]⟩]
        = true ∧
    (updateBulkStock ⟨some []⟩
        [⟨.str "black", some [⟨.num 8, .num 5⟩, ⟨.num 9, .num (-1)⟩]⟩]).updates
      = (applyBulkStockDeltaSpec ⟨some []⟩ (flattenTriples
          [⟨.str "black", some [⟨.num 8, .num 5⟩, ⟨.num 9, .num (-1)⟩]⟩])).updates ∧
    (updateBulkStock ⟨some []⟩
        [⟨.str "black", some [⟨.num 8, .num 5⟩, ⟨.num 9, .num (-1)⟩]⟩]).errors
      = (applyBulkStockDeltaSpec ⟨some []⟩ (flattenTriples
          [⟨.str "black", some [⟨.num 8, .num 5⟩, ⟨.num 9, .num (-1)⟩]⟩])).errors :=
  ⟨by decide,
    (claim_bulk_partial_success ⟨some []⟩
      [⟨.str "black", some [⟨.num 8, .num 5⟩, ⟨.num 9, .num (-1)⟩]⟩]
      (by decide)).2.1,
    (claim_bulk_partial_success ⟨some []⟩
      [⟨.str "black", some [⟨.num 8, .num 5⟩, ⟨.num 9, .num (-1)⟩]⟩]
      (by decide)).2.2.1⟩

/-- C8: contrary to the declared request type
(`BulkStockUpdateBody`, src/types/index.ts:140-148, `size: number |
string`), the bulk path rejects a string-typed size as malformed input —
"must be a number" — without attempting the stock update: evaluated at a
well-formed triple carrying size "M", the update list stays empty, the
product is untouched, and the malformed-input failure is recorded. -/
theorem claim_bulk_string_size_rejected :
    updateBulkStock ⟨some []⟩ [⟨.str "black", some [⟨.str "M", .num 5⟩]⟩]
      = ⟨true, ⟨some []⟩, [],
          ["Invalid size for color \"black\": must be a number"]⟩ := by
  rfl

end ProductBE
